import Mathlib

/-!
Shallow embedding of the stock-data-fetch reconciliation engine
(`src/web/api.py`) and a verification of its specification.

Dates are modelled as ISO strings compared lexicographically, exactly as
the source compares date strings with Python string comparison (e.g.
`if cache_end > end:` in `_read_raw_data`).  The comparison `dlt` below
is the lexicographic order on the underlying character lists, written as
a structurally recursive boolean function so that concrete runs evaluate
inside the kernel.  A time-series table is an association list of
(date, row) pairs, sorted strictly ascending by date (the pandas
DataFrame invariant: unique dates, ascending index).  The pandas
operations used by the source are modelled as follows:

* `df.ix[:end]`    — `truncTo` (label slice, inclusive of `end`);
* `df.ix[d:]`      — `truncFrom` (label slice, inclusive of `d`);
* `df.index[-1]`   — `lastDate` (`none` models the IndexError raised on an
  empty frame, so fallible paths return `Option`);
* `a.combine_first(b)` — `combineFirst` (per-date union, `a` wins on any
  date present in both, result ordered by date; the frames handled by the
  engine never contain NaN cells, so pandas' per-cell fill coincides with
  per-row precedence);
* `df.ix[d, "Adj Close"] = v` — `setAdjClose` (the source only assigns at
  a label already present in the index).

The cache directory is modelled as an association list from file name to
table (`Store`), because the source keys files by the name computed by
`_market_data_filename`, which is what makes key aliasing observable.
The external collaborators are parameters: the remote fetcher is a
function `web : ticker → source → start → end → Table` standing for
`_fetch_web_data` (vendor call plus column normalization), and the live
quote is an `Option (Date × Rat)` standing for `fetch_live_quote`.

The column-level normalization performed by `_fetch_web_data` itself is
embedded separately (`fetch_web_normalize`) on frames with named, typed
columns (`ColFrame`), since its claims concern column dtypes and column
selection rather than dates.
-/

abbrev Date := String

/-- Lexicographic strict order on character lists: the order Python uses
to compare strings.  Structurally recursive so the kernel can run it. -/
def ltChars : List Char → List Char → Bool
  | _, [] => false
  | [], _ :: _ => true
  | a :: as, b :: bs =>
    if a < b then true else if b < a then false else ltChars as bs

/-- `a < b` for date strings, as Python string comparison. -/
def dlt (a b : Date) : Bool := ltChars a.data b.data

/-- One row of a normalized time-series table: the six numeric fields
Open, High, Low, Close, Adj Close, Volume. -/
structure Row where
  openV : Rat
  highV : Rat
  lowV : Rat
  closeV : Rat
  adjCloseV : Rat
  volumeV : Rat
deriving DecidableEq, Repr

abbrev Table := List (Date × Row)

/-- The DataFrame index invariant: dates strictly ascending (hence unique). -/
def Sorted (t : Table) : Prop := t.Pairwise fun p q => dlt p.1 q.1 = true

instance (t : Table) : Decidable (Sorted t) := by
  unfold Sorted; infer_instance

/-- Label lookup: the row stored at date `d`, if any. -/
def getVal (t : Table) (d : Date) : Option Row :=
  (t.find? fun p => p.1 = d).map Prod.snd

/-- `df.ix[:e]`: all rows with date ≤ `e` (pandas label slices are inclusive). -/
def truncTo (t : Table) (e : Date) : Table :=
  t.filter fun p => !dlt e p.1

/-- `df.ix[d:]`: all rows with date ≥ `d`. -/
def truncFrom (t : Table) (d : Date) : Table :=
  t.filter fun p => !dlt p.1 d

/-- `str(df.index[-1].date())`: the date of the last row; `none` models the
IndexError pandas raises on an empty frame. -/
def lastDate (t : Table) : Option Date :=
  t.getLast?.map Prod.fst

/-- Insert a row into a date-sorted table, replacing the row already
stored at the same date, if any. -/
def insertRow (p : Date × Row) : Table → Table
  | [] => [p]
  | q :: t =>
    if dlt p.1 q.1 then p :: q :: t
    else if dlt q.1 p.1 then q :: insertRow p t
    else p :: t

/-- `a.combine_first(b)`: union of the two tables by date, rows of `a`
winning on any date present in both, result ordered by date. -/
def combineFirst (a b : Table) : Table :=
  a.foldr insertRow b

/-- `df.ix[d, "Adj Close"] = v`: overwrite the AdjClose field of every row
labelled `d` (under the index invariant there is at most one such row). -/
def setAdjClose (t : Table) (d : Date) (v : Rat) : Table :=
  t.map fun p => if p.1 = d then (p.1, { p.2 with adjCloseV := v }) else p

/-- `_market_data_filename` from `src/web/api.py`. -/
def market_data_filename (source ticker : String) : String :=
  if source = "reference" then ticker ++ ".csv"
  else ticker ++ "." ++ source ++ ".csv"

/-- Lookup in a string-keyed association list (first entry wins). -/
def assocRead {α : Type} (l : List (String × α)) (k : String) : Option α :=
  (l.find? fun p => p.1 = k).map Prod.snd

/-- Update in a string-keyed association list: overwrite the entries under
an existing key in place, or append a new entry at the end. -/
def assocWrite {α : Type} (l : List (String × α)) (k : String) (v : α) :
    List (String × α) :=
  if (l.find? fun p => p.1 = k).isSome then
    l.map fun p => if p.1 = k then (p.1, v) else p
  else l ++ [(k, v)]

/-- The cache directory: file name ↦ persisted table. -/
abbrev Store := List (String × Table)

/-- Reading a file from the cache directory (`none`: no such file). -/
def storeRead (s : Store) (fn : String) : Option Table :=
  assocRead s fn

/-- Writing a file: overwrite the existing entry or create a new one. -/
def storeWrite (s : Store) (fn : String) (t : Table) : Store :=
  assocWrite s fn t

/-- `DataReader._read_cache`: load the table keyed by (ticker, source). -/
def read_cache (store : Store) (ticker source : String) : Option Table :=
  storeRead store (market_data_filename source ticker)

/-- `DataReader._save_raw_data`: persist a table under (ticker, source). -/
def save_raw_data (store : Store) (ticker source : String) (df : Table) : Store :=
  storeWrite store (market_data_filename source ticker) df

/-- `DataReader.origin`. -/
def origin : Date := "1926-01-01"

/-- A record of one invocation of the remote fetcher, for counting
network calls and checking the requested window. -/
structure FetchCall where
  ticker : String
  source : String
  start : Date
  stop : Date
deriving DecidableEq, Repr

/-- The remote fetcher collaborator: `_fetch_web_data` (vendor fetch plus
column normalization), as consumed by the reconciliation engine. -/
abbrev WebFetch := String → String → Date → Date → Table

/-- `DataReader._read_raw_data`: serve from cache as far as possible and
fetch the missing range from the web.  Returns the raw series together
with the list of remote-fetch invocations made; `none` models the
IndexError raised when a cached frame is empty (`cache_df.index[-1]`). -/
def read_raw_data (enable_cache : Bool) (web : WebFetch) (store : Store)
    (ticker source : String) (start stop : Date) :
    Option (Table × List FetchCall) :=
  if !enable_cache then
    some (web ticker source start stop, [⟨ticker, source, start, stop⟩])
  else
    match read_cache store ticker source with
    | none => some (web ticker source start stop, [⟨ticker, source, start, stop⟩])
    | some cache_df =>
      match lastDate cache_df with
      | none => none
      | some cache_end =>
        if dlt stop cache_end then
          some (truncTo cache_df stop, [])
        else
          let web_df := web ticker source cache_end stop
          some (combineFirst web_df cache_df, [⟨ticker, source, cache_end, stop⟩])

/-- `DataReader._combine_ref_and_raw_data`: reference table wins, raw rows
from the reference's last date onward fill the gaps; `none` models the
IndexError raised when the reference frame is present but empty. -/
def combine_ref_and_raw_data (refOpt : Option Table) (raw_df : Table) :
    Option Table :=
  match refOpt with
  | none => some raw_df
  | some ref_df =>
    match lastDate ref_df with
    | none => none
    | some ref_end => some (combineFirst ref_df (truncFrom raw_df ref_end))

/-- `DataReader._update_with_live_quote`: if a quote is present and dated
like the table's last row, overwrite that row's AdjClose with the quote's
price; otherwise leave the table unchanged.  `none` models the IndexError
raised when a quote is present but the table is empty. -/
def update_with_live_quote (quote : Option (Date × Rat)) (df : Table) :
    Option Table :=
  match quote with
  | none => some df
  | some (qdate, qval) =>
    match lastDate df with
    | none => none
    | some ld => if ld = qdate then some (setAdjClose df qdate qval) else some df

/-- A consistent vendor collaborator for scenario claims: a fixed full
history `V`; a fetch over `[s, e]` returns exactly its rows in that
inclusive range, for any ticker and source. -/
def vendor_fetch (V : Table) : WebFetch :=
  fun _ _ s e => truncFrom (truncTo V e) s

/-- The outcome of one `DataReader.read` call: the returned table, the
cache directory afterwards, and the remote fetches performed. -/
structure ReadResult where
  table : Table
  store : Store
  calls : List FetchCall
deriving DecidableEq, Repr

/-- `DataReader.read`: the full reconciliation pipeline.  `enable_cache`
and `use_reference` are the constructor flags, `today` is `str(_today())`,
`endOpt` is the `end` argument (`none` defaults to today, via
`end = end or today`). -/
def DataReader.read (enable_cache use_reference : Bool) (web : WebFetch)
    (quote : Option (Date × Rat)) (today : Date) (store : Store)
    (ticker source : String) (endOpt : Option Date) : Option ReadResult := do
  let e := endOpt.getD today
  let (raw_df, calls) ←
    read_raw_data enable_cache web store ticker source origin e
  let store1 := save_raw_data store ticker source raw_df
  let df ←
    if use_reference then
      combine_ref_and_raw_data (read_cache store1 ticker "reference") raw_df
    else some raw_df
  let df2 ← if e = today then update_with_live_quote quote df else some df
  let store2 := save_raw_data store1 ticker "reference" df2
  some ⟨df2, store2, calls⟩

/-! ## Column-level model of `_fetch_web_data`

The normalization in `_fetch_web_data` works on a vendor DataFrame with
named columns, each carrying a dtype; its claims are about dtypes and
column selection, so the frame is modelled as an ordered list of named
columns.  Cell values are rationals; a column's dtype records whether the
vendor delivered it as an integer or a 64-bit float column. -/

inductive DType
  | int64
  | float64
deriving DecidableEq, Repr

/-- A named DataFrame column: its dtype and its values, one per row. -/
structure Column where
  dtype : DType
  vals : List Rat
deriving DecidableEq, Repr

/-- A DataFrame as a sequence of named columns over a shared row index. -/
abbrev ColFrame := List (String × Column)

/-- `df[name]`: the column of that name, `none` modelling the KeyError. -/
def getCol (f : ColFrame) (name : String) : Option Column :=
  assocRead f name

/-- `name in df.columns`. -/
def hasCol (f : ColFrame) (name : String) : Bool :=
  (assocRead f name).isSome

/-- `df[name] = c`: overwrite an existing column in place, or append a
new column at the end, as pandas column assignment does. -/
def setCol (f : ColFrame) (name : String) (c : Column) : ColFrame :=
  assocWrite f name c

/-- `df[[names]]`: exactly the named columns in the given order, `none`
modelling the KeyError raised when one is missing. -/
def selectCols (f : ColFrame) : List String → Option ColFrame
  | [] => some []
  | n :: ns => do
    let c ← getCol f n
    let rest ← selectCols f ns
    some ((n, c) :: rest)

/-- `DataReader.OpenCol`. -/
def OpenCol : String := "Open"

/-- `DataReader.CloseCol`. -/
def CloseCol : String := "Close"

/-- `DataReader.AdjCloseCol`. -/
def AdjCloseCol : String := "Adj Close"

/-- `DataReader.HighCol`. -/
def HighCol : String := "High"

/-- `DataReader.LowCol`. -/
def LowCol : String := "Low"

/-- `DataReader.VolumeCol`. -/
def VolumeCol : String := "Volume"

/-- The normalization step of `DataReader._fetch_web_data`, applied to the
frame returned by `web.DataReader`.  The source evaluates
`web_df[col].astype(np.float64)` for the five price/volume columns but
never assigns the result back, so those five statements only check that
the column exists (KeyError otherwise) and leave the frame unchanged;
then `Adj Close` is synthesized as a copy of `Close` when missing, and
exactly six columns are selected in a fixed order. -/
def fetch_web_normalize (web_df : ColFrame) : Option ColFrame := do
  let _ ← getCol web_df OpenCol
  let _ ← getCol web_df CloseCol
  let _ ← getCol web_df HighCol
  let _ ← getCol web_df LowCol
  let _ ← getCol web_df VolumeCol
  let web_df2 ←
    if hasCol web_df AdjCloseCol then some web_df
    else do
      let c ← getCol web_df CloseCol
      some (setCol web_df AdjCloseCol c)
  selectCols web_df2
    [OpenCol, HighCol, LowCol, CloseCol, AdjCloseCol, VolumeCol]

/-- What the spec asserts the normalization does to dtypes: cast the five
price/volume columns to float64.  Stated from the spec's words, for
comparison with `fetch_web_normalize` (which embeds the source). -/
def castFiveColsSpec (f : ColFrame) : ColFrame :=
  f.map fun p =>
    if p.1 = OpenCol ∨ p.1 = HighCol ∨ p.1 = LowCol ∨ p.1 = CloseCol ∨
        p.1 = VolumeCol then
      (p.1, { p.2 with dtype := DType.float64 })
    else p

/-! ## Order lemmas for the date comparison -/

theorem ltChars_irrefl (l : List Char) : ltChars l l = false := by
  induction l with
  | nil => rfl
  | cons a as ih => simp [ltChars, lt_irrefl a, ih]

theorem ltChars_asymm : ∀ (a b : List Char),
    ltChars a b = true → ltChars b a = false
  | _, [], h => by simp [ltChars] at h
  | [], _ :: _, _ => rfl
  | x :: xs, y :: ys, h => by
    simp only [ltChars] at h ⊢
    rcases lt_trichotomy x y with hxy | hxy | hxy
    · simp [hxy, lt_asymm hxy]
    · subst hxy
      rw [if_neg (lt_irrefl x), if_neg (lt_irrefl x)] at h ⊢
      exact ltChars_asymm xs ys h
    · rw [if_neg (lt_asymm hxy), if_pos hxy] at h
      exact absurd h (by simp)

theorem ltChars_trans : ∀ (a b c : List Char),
    ltChars a b = true → ltChars b c = true → ltChars a c = true
  | _, b, [], _, h2 => by simp [ltChars] at h2
  | [], _, _ :: _, _, _ => rfl
  | x :: xs, [], z :: zs, h1, _ => by simp [ltChars] at h1
  | x :: xs, y :: ys, z :: zs, h1, h2 => by
    simp only [ltChars] at h1 h2 ⊢
    rcases lt_trichotomy x y with hxy | hxy | hxy
    · rcases lt_trichotomy y z with hyz | hyz | hyz
      · simp [lt_trans hxy hyz]
      · subst hyz; simp [hxy]
      · rw [if_neg (lt_asymm hyz), if_pos hyz] at h2
        exact absurd h2 (by simp)
    · subst hxy
      rw [if_neg (lt_irrefl x), if_neg (lt_irrefl x)] at h1
      rcases lt_trichotomy x z with hyz | hyz | hyz
      · simp [hyz]
      · subst hyz
        rw [if_neg (lt_irrefl x), if_neg (lt_irrefl x)] at h2 ⊢
        exact ltChars_trans xs ys zs h1 h2
      · rw [if_neg (lt_asymm hyz), if_pos hyz] at h2
        exact absurd h2 (by simp)
    · rw [if_neg (lt_asymm hxy), if_pos hxy] at h1
      exact absurd h1 (by simp)

theorem ltChars_eq_of_not : ∀ (a b : List Char),
    ltChars a b = false → ltChars b a = false → a = b
  | [], [], _, _ => rfl
  | [], _ :: _, h1, _ => by simp [ltChars] at h1
  | _ :: _, [], _, h2 => by simp [ltChars] at h2
  | x :: xs, y :: ys, h1, h2 => by
    rcases lt_trichotomy x y with hxy | hxy | hxy
    · rw [ltChars, if_pos hxy] at h1
      exact absurd h1 (by simp)
    · subst hxy
      rw [ltChars, if_neg (lt_irrefl x), if_neg (lt_irrefl x)] at h1 h2
      rw [ltChars_eq_of_not xs ys h1 h2]
    · rw [ltChars, if_neg (lt_asymm hxy), if_pos hxy] at h2
      exact absurd h2 (by simp)

theorem dlt_irrefl (a : Date) : dlt a a = false := ltChars_irrefl a.data

theorem dlt_asymm {a b : Date} (h : dlt a b = true) : dlt b a = false :=
  ltChars_asymm a.data b.data h

theorem dlt_trans {a b c : Date} (h1 : dlt a b = true) (h2 : dlt b c = true) :
    dlt a c = true :=
  ltChars_trans a.data b.data c.data h1 h2

theorem dlt_connex {a b : Date} (h1 : dlt a b = false) (h2 : dlt b a = false) :
    a = b :=
  String.ext (ltChars_eq_of_not a.data b.data h1 h2)

theorem dlt_trans_left {a b c : Date} (h1 : dlt b a = false)
    (h2 : dlt b c = true) : dlt a c = true := by
  cases h : dlt a b with
  | true => exact dlt_trans h h2
  | false => rw [dlt_connex h h1]; exact h2

theorem dlt_trans_right {a b c : Date} (h1 : dlt a b = true)
    (h2 : dlt c b = false) : dlt a c = true := by
  cases h : dlt b c with
  | true => exact dlt_trans h1 h
  | false => rw [← dlt_connex h h2]; exact h1

theorem dlt_ne {a b : Date} (h : dlt a b = true) : a ≠ b := by
  intro he; subst he; rw [dlt_irrefl] at h; exact absurd h (by simp)

/-! ## Table lemmas -/

theorem getVal_cons (p : Date × Row) (t : Table) (d : Date) :
    getVal (p :: t) d = if p.1 = d then some p.2 else getVal t d := by
  by_cases h : p.1 = d <;> simp [getVal, List.find?_cons, h]

theorem getVal_eq_some_mem {t : Table} {d : Date} {r : Row}
    (h : getVal t d = some r) : (d, r) ∈ t := by
  induction t with
  | nil => simp [getVal] at h
  | cons p t ih =>
    rw [getVal_cons] at h
    by_cases hp : p.1 = d
    · rw [if_pos hp] at h
      obtain ⟨pa, pb⟩ := p
      simp only at hp
      obtain rfl : pb = r := by simpa using h
      subst hp
      exact List.mem_cons_self _ _
    · rw [if_neg hp] at h
      exact List.mem_cons_of_mem _ (ih h)

theorem getVal_isSome_of_mem {t : Table} {d : Date} {r : Row}
    (h : (d, r) ∈ t) : ∃ r', getVal t d = some r' := by
  induction t with
  | nil => simp at h
  | cons p t ih =>
    rw [getVal_cons]
    by_cases hp : p.1 = d
    · exact ⟨p.2, if_pos hp⟩
    · rw [if_neg hp]
      rcases List.mem_cons.mp h with h | h
      · subst h; simp at hp
      · exact ih h

theorem getVal_tail_eq_none {p : Date × Row} {t : Table}
    (h : Sorted (p :: t)) : getVal t p.1 = none := by
  cases hg : getVal t p.1 with
  | none => rfl
  | some r =>
    have hm := getVal_eq_some_mem hg
    have := (List.pairwise_cons.mp h).1 _ hm
    simp [dlt_irrefl] at this

theorem getVal_insertRow_self (p : Date × Row) (t : Table) :
    getVal (insertRow p t) p.1 = some p.2 := by
  induction t with
  | nil => simp [insertRow, getVal_cons]
  | cons q t ih =>
    rw [insertRow]
    by_cases h1 : dlt p.1 q.1 = true
    · simp [h1, getVal_cons]
    · rw [if_neg (by simpa using h1)]
      by_cases h2 : dlt q.1 p.1 = true
      · rw [if_pos (by simpa using h2), getVal_cons,
          if_neg (fun he => by rw [he, dlt_irrefl] at h2; simp at h2)]
        exact ih
      · rw [if_neg (by simpa using h2), getVal_cons, if_pos rfl]

theorem getVal_insertRow_other (p : Date × Row) (t : Table) {d : Date}
    (hd : d ≠ p.1) : getVal (insertRow p t) d = getVal t d := by
  induction t with
  | nil =>
    show getVal [p] d = getVal [] d
    rw [getVal_cons, if_neg (fun h => hd h.symm)]
  | cons q t ih =>
    rw [insertRow]
    by_cases h1 : dlt p.1 q.1 = true
    · rw [if_pos (by simpa using h1), getVal_cons, if_neg (fun h => hd h.symm)]
    · rw [if_neg (by simpa using h1)]
      by_cases h2 : dlt q.1 p.1 = true
      · rw [if_pos (by simpa using h2), getVal_cons, getVal_cons]
        by_cases hq : q.1 = d
        · rw [if_pos hq, if_pos hq]
        · rw [if_neg hq, if_neg hq]; exact ih
      · rw [if_neg (by simpa using h2)]
        have hqp : q.1 = p.1 :=
          dlt_connex (by simpa using h2) (by simpa using h1)
        rw [getVal_cons, getVal_cons, if_neg (fun h => hd h.symm),
          if_neg (fun h => hd (hqp ▸ h).symm)]

theorem getVal_combineFirst_left {a : Table} (b : Table) {d : Date} {r : Row}
    (h : getVal a d = some r) : getVal (combineFirst a b) d = some r := by
  induction a with
  | nil => simp [getVal] at h
  | cons p a ih =>
    rw [getVal_cons] at h
    show getVal (insertRow p (combineFirst a b)) d = some r
    by_cases hp : p.1 = d
    · rw [if_pos hp] at h
      rw [← hp, getVal_insertRow_self, h]
    · rw [if_neg hp] at h
      rw [getVal_insertRow_other _ _ (fun he => hp he.symm)]
      exact ih h

theorem getVal_combineFirst_none {a : Table} (b : Table) {d : Date}
    (h : getVal a d = none) : getVal (combineFirst a b) d = getVal b d := by
  induction a with
  | nil => rfl
  | cons p a ih =>
    rw [getVal_cons] at h
    by_cases hp : p.1 = d
    · rw [if_pos hp] at h; simp at h
    · rw [if_neg hp] at h
      show getVal (insertRow p (combineFirst a b)) d = getVal b d
      rw [getVal_insertRow_other _ _ (fun he => hp he.symm)]
      exact ih h

theorem mem_insertRow {q p : Date × Row} {t : Table}
    (h : q ∈ insertRow p t) : q = p ∨ q ∈ t := by
  induction t with
  | nil => simp [insertRow] at h; exact Or.inl h
  | cons s t ih =>
    rw [insertRow] at h
    by_cases h1 : dlt p.1 s.1 = true
    · rw [if_pos (by simpa using h1)] at h
      rcases List.mem_cons.mp h with h | h
      · exact Or.inl h
      · exact Or.inr h
    · rw [if_neg (by simpa using h1)] at h
      by_cases h2 : dlt s.1 p.1 = true
      · rw [if_pos (by simpa using h2)] at h
        rcases List.mem_cons.mp h with h | h
        · exact Or.inr (h ▸ List.mem_cons_self _ _)
        · rcases ih h with h' | h'
          · exact Or.inl h'
          · exact Or.inr (List.mem_cons_of_mem _ h')
      · rw [if_neg (by simpa using h2)] at h
        rcases List.mem_cons.mp h with h | h
        · exact Or.inl h
        · exact Or.inr (List.mem_cons_of_mem _ h)

theorem exists_mem_insertRow (p : Date × Row) {t : Table} {d : Date} {r : Row}
    (h : (d, r) ∈ t) : ∃ r', (d, r') ∈ insertRow p t := by
  by_cases hd : d = p.1
  · subst hd
    exact ⟨p.2, getVal_eq_some_mem (getVal_insertRow_self p t)⟩
  · rcases getVal_isSome_of_mem h with ⟨r', hr'⟩
    refine ⟨r', getVal_eq_some_mem ?_⟩
    rw [getVal_insertRow_other p t hd]
    exact hr'

theorem sorted_insertRow {t : Table} (p : Date × Row) (h : Sorted t) :
    Sorted (insertRow p t) := by
  induction t with
  | nil => simp [insertRow, Sorted]
  | cons q t ih =>
    rw [insertRow]
    rcases List.pairwise_cons.mp h with ⟨hq, ht⟩
    by_cases h1 : dlt p.1 q.1 = true
    · rw [if_pos (by simpa using h1)]
      refine List.pairwise_cons.mpr ⟨?_, h⟩
      intro s hs
      rcases List.mem_cons.mp hs with hs | hs
      · rw [hs]; exact h1
      · exact dlt_trans h1 (hq s hs)
    · rw [if_neg (by simpa using h1)]
      by_cases h2 : dlt q.1 p.1 = true
      · rw [if_pos (by simpa using h2)]
        refine List.pairwise_cons.mpr ⟨?_, ih ht⟩
        intro s hs
        rcases mem_insertRow hs with hs | hs
        · rw [hs]; exact h2
        · exact hq s hs
      · rw [if_neg (by simpa using h2)]
        have hqp : q.1 = p.1 :=
          dlt_connex (by simpa using h2) (by simpa using h1)
        refine List.pairwise_cons.mpr ⟨?_, ht⟩
        intro s hs
        rw [← hqp]
        exact hq s hs

theorem sorted_combineFirst (a : Table) {b : Table} (hb : Sorted b) :
    Sorted (combineFirst a b) := by
  induction a with
  | nil => exact hb
  | cons p a ih => exact sorted_insertRow p ih

theorem exists_mem_combineFirst (a : Table) {b : Table} {d : Date} {r : Row}
    (h : (d, r) ∈ b) : ∃ r', (d, r') ∈ combineFirst a b := by
  induction a with
  | nil => exact ⟨r, h⟩
  | cons p a ih =>
    rcases ih with ⟨r', hr'⟩
    exact exists_mem_insertRow p hr'

theorem lastDate_cons_cons (p q : Date × Row) (t : Table) :
    lastDate (p :: q :: t) = lastDate (q :: t) := by
  simp [lastDate, List.getLast?_cons_cons]

theorem lastDate_mem : ∀ {t : Table} {m : Date},
    lastDate t = some m → ∃ r, (m, r) ∈ t
  | [], m, h => by simp [lastDate] at h
  | [p], m, h => by
    simp only [lastDate, List.getLast?_singleton, Option.map_some'] at h
    obtain rfl : p.1 = m := Option.some.inj h
    exact ⟨p.2, by simp⟩
  | p :: q :: t, m, h => by
    rw [lastDate_cons_cons] at h
    rcases lastDate_mem h with ⟨r, hr⟩
    exact ⟨r, List.mem_cons_of_mem _ hr⟩

theorem lastDate_isSome (p : Date × Row) (t : Table) :
    ∃ m, lastDate (p :: t) = some m := by
  induction t generalizing p with
  | nil => exact ⟨p.1, rfl⟩
  | cons q t ih =>
    rw [lastDate_cons_cons]
    exact ih q

theorem not_dlt_lastDate : ∀ {t : Table}, Sorted t → ∀ {d : Date} {r : Row},
    (d, r) ∈ t → ∀ {m : Date}, lastDate t = some m → dlt m d = false
  | [], _, _, _, hm, _, _ => by simp at hm
  | [p], _, d, r, hm, m, h => by
    simp only [lastDate, List.getLast?_singleton, Option.map_some'] at h
    obtain rfl : p.1 = m := Option.some.inj h
    rcases List.mem_cons.mp hm with hm | hm
    · have hd : d = p.1 := congrArg Prod.fst hm
      rw [hd, dlt_irrefl]
    · simp at hm
  | p :: q :: t, hs, d, r, hm, m, h => by
    rw [lastDate_cons_cons] at h
    rcases List.pairwise_cons.mp hs with ⟨hp, hs'⟩
    rcases List.mem_cons.mp hm with hm | hm
    · rcases lastDate_mem h with ⟨rm, hrm⟩
      have hdm : dlt d m = true := by
        have := hp _ hrm
        rw [show d = (d, r).1 by rfl, hm]
        exact this
      exact dlt_asymm hdm
    · exact not_dlt_lastDate hs' hm h

theorem sorted_filter (f : Date × Row → Bool) {t : Table} (h : Sorted t) :
    Sorted (t.filter f) :=
  List.Pairwise.sublist (List.filter_sublist t) h

theorem getVal_filter (g : Date → Bool) (t : Table) (d : Date) :
    getVal (t.filter fun p => g p.1) d = if g d then getVal t d else none := by
  induction t with
  | nil => cases hg : g d <;> simp [getVal, hg]
  | cons p t ih =>
    by_cases hp : p.1 = d
    · subst hp
      cases hg : g p.1 <;> simp [List.filter_cons, hg, ih, getVal_cons]
    · cases hg : g p.1 <;> simp [List.filter_cons, hg, ih, getVal_cons, hp]

theorem table_ext : ∀ {a b : Table}, Sorted a → Sorted b →
    (∀ d, getVal a d = getVal b d) → a = b
  | [], [], _, _, _ => rfl
  | [], q :: bs, _, _, hext => by
    have := hext q.1
    rw [getVal_cons, if_pos rfl] at this
    simp [getVal] at this
  | p :: as, [], _, _, hext => by
    have := hext p.1
    rw [getVal_cons, if_pos rfl] at this
    simp [getVal] at this
  | p :: as, q :: bs, hsa, hsb, hext => by
    have hpq : p.1 = q.1 := by
      by_cases h1 : dlt p.1 q.1 = true
      · exfalso
        have hv := hext p.1
        rw [getVal_cons p as p.1, if_pos rfl] at hv
        rcases List.mem_cons.mp (getVal_eq_some_mem hv.symm) with hm | hm
        · exact dlt_ne h1 (by rw [← hm])
        · have hqp := (List.pairwise_cons.mp hsb).1 _ hm
          rw [dlt_asymm h1] at hqp
          exact absurd hqp (by simp)
      · by_cases h2 : dlt q.1 p.1 = true
        · exfalso
          have hv := hext q.1
          rw [getVal_cons q bs q.1, if_pos rfl] at hv
          rcases List.mem_cons.mp (getVal_eq_some_mem hv) with hm | hm
          · exact dlt_ne h2 (by rw [← hm])
          · have hpp := (List.pairwise_cons.mp hsa).1 _ hm
            rw [dlt_asymm h2] at hpp
            exact absurd hpp (by simp)
        · exact dlt_connex (by simpa using h1) (by simpa using h2)
    have hrow : p.2 = q.2 := by
      have hv := hext p.1
      rw [getVal_cons, if_pos rfl, getVal_cons, if_pos hpq.symm] at hv
      exact Option.some.inj hv
    have htail : as = bs := by
      refine table_ext (List.pairwise_cons.mp hsa).2
        (List.pairwise_cons.mp hsb).2 (fun d => ?_)
      by_cases hd : d = p.1
      · subst hd
        rw [getVal_tail_eq_none hsa]
        rw [show p.1 = q.1 from hpq, getVal_tail_eq_none hsb]
      · have hv := hext d
        rw [getVal_cons, if_neg (fun h => hd h.symm), getVal_cons,
          if_neg (fun h => hd (hpq ▸ h).symm)] at hv
        exact hv
    rw [htail, Prod.ext hpq hrow]

/-! ## Association-list (cache directory and column frame) lemmas -/

theorem assocRead_cons {α : Type} (q : String × α)
    (s : List (String × α)) (k : String) :
    assocRead (q :: s) k = if q.1 = k then some q.2 else assocRead s k := by
  by_cases h : q.1 = k <;> simp [assocRead, List.find?_cons, h]

theorem assocRead_append {α : Type} (s1 s2 : List (String × α)) (k : String) :
    assocRead (s1 ++ s2) k =
      match assocRead s1 k with
      | some t => some t
      | none => assocRead s2 k := by
  induction s1 with
  | nil => simp [assocRead]
  | cons p s ih =>
    rw [List.cons_append, assocRead_cons, assocRead_cons]
    by_cases hp : p.1 = k
    · rw [if_pos hp, if_pos hp]
    · rw [if_neg hp, if_neg hp, ih]

theorem assocRead_map_replace {α : Type} (s : List (String × α)) (k : String)
    (v : α) :
    assocRead (s.map fun p => if p.1 = k then (p.1, v) else p) k =
      (assocRead s k).map fun _ => v := by
  induction s with
  | nil => rfl
  | cons p s ih =>
    by_cases hp : p.1 = k
    · simp only [List.map_cons, if_pos hp]
      rw [assocRead_cons, assocRead_cons, if_pos hp]
      simp [hp]
    · simp only [List.map_cons, if_neg hp]
      rw [assocRead_cons, assocRead_cons, if_neg hp, if_neg hp, ih]

theorem assocRead_map_replace_other {α : Type} (s : List (String × α))
    {k k' : String} (v : α) (h : k' ≠ k) :
    assocRead (s.map fun p => if p.1 = k then (p.1, v) else p) k' =
      assocRead s k' := by
  induction s with
  | nil => rfl
  | cons p s ih =>
    by_cases hp : p.1 = k
    · have hp' : ¬ p.1 = k' := fun he => h (by rw [← he, hp])
      simp only [List.map_cons, if_pos hp]
      rw [assocRead_cons, assocRead_cons]
      simp only [hp', if_false, eq_self_iff_true]
      rw [ih]
    · simp only [List.map_cons, if_neg hp]
      rw [assocRead_cons, assocRead_cons, ih]

theorem assocRead_assocWrite_same {α : Type} (s : List (String × α))
    (k : String) (v : α) : assocRead (assocWrite s k v) k = some v := by
  unfold assocWrite
  by_cases h : (s.find? fun p => p.1 = k).isSome
  · rw [if_pos h, assocRead_map_replace]
    rcases Option.isSome_iff_exists.mp h with ⟨q, hq⟩
    simp [assocRead, hq]
  · rw [if_neg h, assocRead_append]
    have hnone : assocRead s k = none := by
      simp only [assocRead]
      rw [Option.not_isSome_iff_eq_none.mp h]
      rfl
    rw [hnone]
    simp [assocRead, List.find?_cons]

theorem assocRead_assocWrite_other {α : Type} (s : List (String × α))
    {k k' : String} (v : α) (h : k' ≠ k) :
    assocRead (assocWrite s k v) k' = assocRead s k' := by
  unfold assocWrite
  by_cases hs : (s.find? fun p => p.1 = k).isSome
  · rw [if_pos hs, assocRead_map_replace_other s v h]
  · rw [if_neg hs, assocRead_append]
    cases hr : assocRead s k' with
    | some u => rfl
    | none => simp [assocRead, List.find?_cons, Ne.symm h]

theorem storeRead_storeWrite_same (s : Store) (fn : String) (t : Table) :
    storeRead (storeWrite s fn t) fn = some t :=
  assocRead_assocWrite_same s fn t

theorem storeRead_storeWrite_other (s : Store) {fn fn' : String} (t : Table)
    (h : fn' ≠ fn) : storeRead (storeWrite s fn t) fn' = storeRead s fn' :=
  assocRead_assocWrite_other s t h

theorem getCol_setCol_same (f : ColFrame) (n : String) (c : Column) :
    getCol (setCol f n c) n = some c :=
  assocRead_assocWrite_same f n c

theorem getCol_setCol_other (f : ColFrame) {n n' : String} (c : Column)
    (h : n' ≠ n) : getCol (setCol f n c) n' = getCol f n' :=
  assocRead_assocWrite_other f c h

/-! ## ColFrame lemmas -/

theorem getCol_selectCols {f : ColFrame} : ∀ {names : List String}
    {out : ColFrame}, selectCols f names = some out → ∀ m,
    getCol out m = if m ∈ names then getCol f m else none := by
  intro names
  induction names with
  | nil =>
    intro out h m
    obtain rfl : ([] : ColFrame) = out := by simpa [selectCols] using h
    simp [getCol, assocRead]
  | cons n ns ih =>
    intro out h m
    rw [selectCols] at h
    cases hc : getCol f n with
    | none => rw [hc] at h; simp at h
    | some c =>
    rw [hc] at h
    cases hrest : selectCols f ns with
    | none => rw [hrest] at h; simp at h
    | some rest =>
    rw [hrest] at h
    obtain rfl : (n, c) :: rest = out := by simpa using h
    show assocRead ((n, c) :: rest) m = _
    rw [assocRead_cons]
    by_cases hm : n = m
    · subst hm
      rw [if_pos rfl, if_pos (List.mem_cons_self _ _), hc]
    · rw [if_neg hm]
      have := ih hrest m
      rw [show getCol rest m = assocRead rest m from rfl] at this
      rw [this]
      by_cases hmem : m ∈ ns
      · rw [if_pos hmem, if_pos (List.mem_cons_of_mem _ hmem)]
      · rw [if_neg hmem, if_neg (by
          intro hx
          rcases List.mem_cons.mp hx with hx | hx
          · exact hm hx.symm
          · exact hmem hx)]

/-- C5: for every fetched vendor table the claim asserts the five
price/volume columns are cast to float64.  The source discards the
results of its `.astype(np.float64)` calls, so an integer Volume column
stays int64: evaluating the normalization on a vendor frame whose Volume
column is int64 yields a six-column frame in the fixed order whose Volume
dtype is still int64, contradicting the claimed cast (and the function's
own docstring). -/
theorem claim5_theorem :
    fetch_web_normalize
        [(OpenCol, ⟨DType.float64, [10]⟩), (HighCol, ⟨DType.float64, [12]⟩),
         (LowCol, ⟨DType.float64, [9]⟩), (CloseCol, ⟨DType.float64, [11]⟩),
         (VolumeCol, ⟨DType.int64, [1000]⟩)] =
      some [(OpenCol, ⟨DType.float64, [10]⟩), (HighCol, ⟨DType.float64, [12]⟩),
        (LowCol, ⟨DType.float64, [9]⟩), (CloseCol, ⟨DType.float64, [11]⟩),
        (AdjCloseCol, ⟨DType.float64, [11]⟩),
        (VolumeCol, ⟨DType.int64, [1000]⟩)] ∧
    (fetch_web_normalize
        [(OpenCol, ⟨DType.float64, [10]⟩), (HighCol, ⟨DType.float64, [12]⟩),
         (LowCol, ⟨DType.float64, [9]⟩), (CloseCol, ⟨DType.float64, [11]⟩),
         (VolumeCol, ⟨DType.int64, [1000]⟩)]).map castFiveColsSpec ≠
      fetch_web_normalize
        [(OpenCol, ⟨DType.float64, [10]⟩), (HighCol, ⟨DType.float64, [12]⟩),
         (LowCol, ⟨DType.float64, [9]⟩), (CloseCol, ⟨DType.float64, [11]⟩),
         (VolumeCol, ⟨DType.int64, [1000]⟩)] ∧
    DType.int64 ≠ DType.float64 := by decide

/-- C6: when the vendor table lacks an AdjustedClose column, the
normalized table's AdjClose column equals its Close column, which is the
vendor's Close column. -/
theorem claim6_theorem (web_df out : ColFrame)
    (hno : hasCol web_df AdjCloseCol = false)
    (h : fetch_web_normalize web_df = some out) :
    getCol out AdjCloseCol = getCol out CloseCol ∧
    getCol out AdjCloseCol = getCol web_df CloseCol := by
  rw [fetch_web_normalize] at h
  cases h1 : getCol web_df OpenCol with
  | none => rw [h1] at h; simp at h
  | some c1 =>
  rw [h1] at h
  simp only [Option.bind_eq_bind, Option.some_bind] at h
  cases h2 : getCol web_df CloseCol with
  | none => rw [h2] at h; simp at h
  | some c2 =>
  rw [h2] at h
  simp only [Option.bind_eq_bind, Option.some_bind] at h
  cases h3 : getCol web_df HighCol with
  | none => rw [h3] at h; simp at h
  | some c3 =>
  rw [h3] at h
  simp only [Option.bind_eq_bind, Option.some_bind] at h
  cases h4 : getCol web_df LowCol with
  | none => rw [h4] at h; simp at h
  | some c4 =>
  rw [h4] at h
  simp only [Option.bind_eq_bind, Option.some_bind] at h
  cases h5 : getCol web_df VolumeCol with
  | none => rw [h5] at h; simp at h
  | some c5 =>
  rw [h5] at h
  simp only [Option.bind_eq_bind, Option.some_bind, hno, Bool.false_eq_true,
    if_false, h2] at h
  have hsel : selectCols (setCol web_df AdjCloseCol c2)
      [OpenCol, HighCol, LowCol, CloseCol, AdjCloseCol, VolumeCol] =
      some out := h
  have hadj := getCol_selectCols hsel AdjCloseCol
  rw [if_pos (by decide)] at hadj
  have hclose := getCol_selectCols hsel CloseCol
  rw [if_pos (by decide)] at hclose
  rw [getCol_setCol_same] at hadj
  rw [getCol_setCol_other web_df c2 (by decide)] at hclose
  exact ⟨hadj.trans (hclose.trans h2).symm, hadj⟩

/-- C7: in the reference overlay, the reference table wins at its last
date `Dr` even when the raw series holds a different value there; and
when the reference entry is absent the combined result is the raw
series. -/
theorem claim7_theorem (ref_df raw_df : Table) (Dr : Date) (V W : Row)
    (hl : lastDate ref_df = some Dr)
    (hrefv : getVal ref_df Dr = some V)
    (hrawv : getVal raw_df Dr = some W)
    (hne : V ≠ W) :
    (∃ out, combine_ref_and_raw_data (some ref_df) raw_df = some out ∧
      getVal out Dr = some V) ∧
    combine_ref_and_raw_data none raw_df = some raw_df := by
  constructor
  · refine ⟨combineFirst ref_df (truncFrom raw_df Dr), ?_, ?_⟩
    · simp only [combine_ref_and_raw_data, hl]
    · exact getVal_combineFirst_left _ hrefv
  · rfl

theorem map_setAdj_id (init : Table) (qd : Date) (qv : Rat)
    (h : ∀ p ∈ init, p.1 ≠ qd) :
    (init.map fun p =>
      if p.1 = qd then (p.1, { p.2 with adjCloseV := qv }) else p) = init := by
  induction init with
  | nil => rfl
  | cons p t ih =>
    rw [List.map_cons, if_neg (h p (List.mem_cons_self _ _)),
      ih fun q hq => h q (List.mem_cons_of_mem _ hq)]

/-- C8: the live overlay overwrites exactly the last row's AdjClose when
the quote's date matches the table's last date, and leaves the table
entirely unchanged when the quote is absent or dated differently. -/
theorem claim8_theorem (init : Table) (qd : Date) (r : Row) (qv : Rat)
    (hs : Sorted (init ++ [(qd, r)])) :
    update_with_live_quote (some (qd, qv)) (init ++ [(qd, r)]) =
      some (init ++ [(qd, { r with adjCloseV := qv })]) ∧
    update_with_live_quote none (init ++ [(qd, r)]) =
      some (init ++ [(qd, r)]) ∧
    (∀ (qd' : Date) (qv' : Rat), qd' ≠ qd →
      update_with_live_quote (some (qd', qv')) (init ++ [(qd, r)]) =
        some (init ++ [(qd, r)])) := by
  have hlast : lastDate (init ++ [(qd, r)]) = some qd := by
    simp [lastDate, List.getLast?_concat]
  have hinit : ∀ p ∈ init, p.1 ≠ qd := by
    intro p hp he
    have := ((List.pairwise_append.mp hs).2.2) p hp (qd, r)
      (List.mem_cons_self _ _)
    rw [he, dlt_irrefl] at this
    exact absurd this (by simp)
  refine ⟨?_, rfl, ?_⟩
  · simp only [update_with_live_quote, hlast, if_pos rfl]
    rw [setAdjClose, List.map_append, map_setAdj_id init qd qv hinit]
    simp
  · intro qd' qv' hne
    simp only [update_with_live_quote, hlast]
    rw [if_neg (fun he => hne he.symm)]

/-- C10: the (ticker, source) → file-name mapping aliases distinct keys:
ticker "A.b" under the reference source and ticker "A" under source "b"
both map to "A.b.csv", so a table written under the first key is read
back under the second. -/
theorem claim10_theorem :
    market_data_filename "reference" "A.b" = market_data_filename "b" "A" ∧
    market_data_filename "reference" "A.b" = "A.b.csv" ∧
    ("A.b", "reference") ≠ (("A", "b") : String × String) ∧
    storeRead
        (storeWrite [] (market_data_filename "reference" "A.b")
          [("2020-01-01", ⟨1, 1, 1, 1, 1, 1⟩)])
        (market_data_filename "b" "A") =
      some [("2020-01-01", ⟨1, 1, 1, 1, 1, 1⟩)] := by decide

theorem claim6_witness :
    getCol [(OpenCol, ⟨DType.float64, [1]⟩), (HighCol, ⟨DType.float64, [3]⟩),
        (LowCol, ⟨DType.float64, [4]⟩), (CloseCol, ⟨DType.float64, [2]⟩),
        (AdjCloseCol, ⟨DType.float64, [2]⟩), (VolumeCol, ⟨DType.float64, [5]⟩)]
        AdjCloseCol =
      getCol [(OpenCol, ⟨DType.float64, [1]⟩), (HighCol, ⟨DType.float64, [3]⟩),
        (LowCol, ⟨DType.float64, [4]⟩), (CloseCol, ⟨DType.float64, [2]⟩),
        (AdjCloseCol, ⟨DType.float64, [2]⟩), (VolumeCol, ⟨DType.float64, [5]⟩)]
        CloseCol ∧
    getCol [(OpenCol, ⟨DType.float64, [1]⟩), (HighCol, ⟨DType.float64, [3]⟩),
        (LowCol, ⟨DType.float64, [4]⟩), (CloseCol, ⟨DType.float64, [2]⟩),
        (AdjCloseCol, ⟨DType.float64, [2]⟩), (VolumeCol, ⟨DType.float64, [5]⟩)]
        AdjCloseCol =
      getCol [(OpenCol, ⟨DType.float64, [1]⟩), (CloseCol, ⟨DType.float64, [2]⟩),
        (HighCol, ⟨DType.float64, [3]⟩), (LowCol, ⟨DType.float64, [4]⟩),
        (VolumeCol, ⟨DType.float64, [5]⟩)] CloseCol :=
  claim6_theorem
    [(OpenCol, ⟨DType.float64, [1]⟩), (CloseCol, ⟨DType.float64, [2]⟩),
      (HighCol, ⟨DType.float64, [3]⟩), (LowCol, ⟨DType.float64, [4]⟩),
      (VolumeCol, ⟨DType.float64, [5]⟩)]
    [(OpenCol, ⟨DType.float64, [1]⟩), (HighCol, ⟨DType.float64, [3]⟩),
      (LowCol, ⟨DType.float64, [4]⟩), (CloseCol, ⟨DType.float64, [2]⟩),
      (AdjCloseCol, ⟨DType.float64, [2]⟩), (VolumeCol, ⟨DType.float64, [5]⟩)]
    (by decide) (by decide)

theorem claim7_witness :
    (∃ out, combine_ref_and_raw_data
        (some [("2020-01-01", ⟨1, 1, 1, 1, 1, 1⟩)])
        [("2020-01-01", ⟨2, 2, 2, 2, 2, 2⟩)] = some out ∧
      getVal out "2020-01-01" = some ⟨1, 1, 1, 1, 1, 1⟩) ∧
    combine_ref_and_raw_data none [("2020-01-01", ⟨2, 2, 2, 2, 2, 2⟩)] =
      some [("2020-01-01", ⟨2, 2, 2, 2, 2, 2⟩)] :=
  claim7_theorem _ _ "2020-01-01" ⟨1, 1, 1, 1, 1, 1⟩ ⟨2, 2, 2, 2, 2, 2⟩
    (by decide) (by decide) (by decide) (by decide)

theorem claim8_witness :
    update_with_live_quote (some ("2020-01-02", 9))
        ([("2020-01-01", ⟨1, 1, 1, 1, 1, 1⟩)] ++ [("2020-01-02", ⟨2, 2, 2, 2, 2, 2⟩)]) =
      some ([("2020-01-01", ⟨1, 1, 1, 1, 1, 1⟩)] ++ [("2020-01-02", ⟨2, 2, 2, 2, 9, 2⟩)]) ∧
    update_with_live_quote none
        ([("2020-01-01", ⟨1, 1, 1, 1, 1, 1⟩)] ++ [("2020-01-02", ⟨2, 2, 2, 2, 2, 2⟩)]) =
      some ([("2020-01-01", ⟨1, 1, 1, 1, 1, 1⟩)] ++ [("2020-01-02", ⟨2, 2, 2, 2, 2, 2⟩)]) ∧
    (∀ (qd' : Date) (qv' : Rat), qd' ≠ "2020-01-02" →
      update_with_live_quote (some (qd', qv'))
          ([("2020-01-01", ⟨1, 1, 1, 1, 1, 1⟩)] ++ [("2020-01-02", ⟨2, 2, 2, 2, 2, 2⟩)]) =
        some ([("2020-01-01", ⟨1, 1, 1, 1, 1, 1⟩)] ++ [("2020-01-02", ⟨2, 2, 2, 2, 2, 2⟩)])) :=
  claim8_theorem [("2020-01-01", ⟨1, 1, 1, 1, 1, 1⟩)] "2020-01-02"
    ⟨2, 2, 2, 2, 2, 2⟩ 9 (by decide)

/-- The truncation branch of `_read_raw_data`: cache strictly ahead of the
requested end. -/
theorem read_raw_data_trunc (web : WebFetch) (store : Store)
    (ticker source : String) (start stop : Date) {cache_df : Table}
    {cache_end : Date}
    (hc : read_cache store ticker source = some cache_df)
    (hl : lastDate cache_df = some cache_end)
    (hlt : dlt stop cache_end = true) :
    read_raw_data true web store ticker source start stop =
      some (truncTo cache_df stop, []) := by
  simp [read_raw_data, hc, hl, hlt]

/-- The incremental-fetch branch of `_read_raw_data`: requested end at or
beyond the cached end. -/
theorem read_raw_data_fetch (web : WebFetch) (store : Store)
    (ticker source : String) (start stop : Date) {cache_df : Table}
    {cache_end : Date}
    (hc : read_cache store ticker source = some cache_df)
    (hl : lastDate cache_df = some cache_end)
    (hge : dlt stop cache_end = false) :
    read_raw_data true web store ticker source start stop =
      some (combineFirst (web ticker source cache_end stop) cache_df,
        [⟨ticker, source, cache_end, stop⟩]) := by
  simp [read_raw_data, hc, hl, hge]

/-- C1 (as stated, refuted at end = cache_end): with caching enabled and a
cached entry whose last date equals the requested end, `_read_raw_data`
does invoke the remote fetcher (once, over [cache_end, end]), because the
source short-circuits only on `cache_end > end`, strictly. -/
theorem claim1_counterexample :
    (read_raw_data true
        (fun _ _ _ _ => [("2020-01-02", ⟨100, 100, 100, 100, 100, 100⟩)])
        [("GOOG.yahoo.csv",
          [("2020-01-01", ⟨1, 2, 3, 4, 5, 6⟩),
           ("2020-01-02", ⟨7, 8, 9, 10, 11, 12⟩)])]
        "GOOG" "yahoo" origin "2020-01-02").map Prod.snd =
      some [⟨"GOOG", "yahoo", "2020-01-02", "2020-01-02"⟩] ∧
    lastDate [("2020-01-01", ⟨1, 2, 3, 4, 5, 6⟩),
        ("2020-01-02", ⟨7, 8, 9, 10, 11, 12⟩)] = some "2020-01-02" ∧
    Sorted [("2020-01-01", ⟨1, 2, 3, 4, 5, 6⟩),
        ("2020-01-02", ⟨7, 8, 9, 10, 11, 12⟩)] := by
  decide

/-- C1 (amended): with caching enabled and a cached entry whose last date
is strictly later than the requested end, the remote fetcher is not
invoked and the call returns the cached table truncated to `[:end]`
(which `read` then also persists, under both the raw and reference
keys). -/
theorem claim1_theorem (web : WebFetch) (quote : Option (Date × Rat))
    (today : Date) (store : Store) (ticker source : String) (e : Date)
    {cache_df : Table} {cache_end : Date}
    (hc : read_cache store ticker source = some cache_df)
    (hl : lastDate cache_df = some cache_end)
    (hlt : dlt e cache_end = true)
    (hnt : e ≠ today) :
    DataReader.read true false web quote today store ticker source (some e) =
      some ⟨truncTo cache_df e,
        save_raw_data (save_raw_data store ticker source (truncTo cache_df e))
          ticker "reference" (truncTo cache_df e), []⟩ := by
  rw [DataReader.read]
  show (read_raw_data true web store ticker source origin e).bind _ = _
  rw [read_raw_data_trunc web store ticker source origin e hc hl hlt]
  simp [hnt]

theorem claim1_witness :
    DataReader.read true false (fun _ _ _ _ => []) none "2020-03-01"
        [("GOOG.yahoo.csv",
          [("2020-01-01", ⟨1, 2, 3, 4, 5, 6⟩),
           ("2020-01-03", ⟨7, 8, 9, 10, 11, 12⟩)])]
        "GOOG" "yahoo" (some "2020-01-02") =
      some ⟨[("2020-01-01", ⟨1, 2, 3, 4, 5, 6⟩)],
        [("GOOG.yahoo.csv", [("2020-01-01", ⟨1, 2, 3, 4, 5, 6⟩)]),
         ("GOOG.csv", [("2020-01-01", ⟨1, 2, 3, 4, 5, 6⟩)])], []⟩ :=
  (@claim1_theorem (fun _ _ _ _ => []) none "2020-03-01"
    [("GOOG.yahoo.csv",
      [("2020-01-01", ⟨1, 2, 3, 4, 5, 6⟩),
       ("2020-01-03", ⟨7, 8, 9, 10, 11, 12⟩)])]
    "GOOG" "yahoo" "2020-01-02"
    [("2020-01-01", ⟨1, 2, 3, 4, 5, 6⟩), ("2020-01-03", ⟨7, 8, 9, 10, 11, 12⟩)]
    "2020-01-03" (by decide) (by decide) (by decide) (by decide)).trans
    (by decide)

/-- C2 (as stated, refuted): a read with an end strictly earlier than the
cached end persists the truncated table, so the (ticker, source) cache
entry's last date decreases from "2020-01-02" to "2020-01-01". -/
theorem claim2_counterexample :
    (DataReader.read true false (fun _ _ _ _ => []) none "2020-03-01"
        [("GOOG.yahoo.csv",
          [("2020-01-01", ⟨1, 2, 3, 4, 5, 6⟩),
           ("2020-01-02", ⟨7, 8, 9, 10, 11, 12⟩)])]
        "GOOG" "yahoo" (some "2020-01-01")).map
        (fun res => storeRead res.store "GOOG.yahoo.csv") =
      some (some [("2020-01-01", ⟨1, 2, 3, 4, 5, 6⟩)]) ∧
    lastDate [("2020-01-01", ⟨1, 2, 3, 4, 5, 6⟩),
        ("2020-01-02", ⟨7, 8, 9, 10, 11, 12⟩)] = some "2020-01-02" ∧
    lastDate [("2020-01-01", ⟨1, 2, 3, 4, 5, 6⟩)] = some "2020-01-01" ∧
    dlt "2020-01-01" "2020-01-02" = true ∧
    Sorted [("2020-01-01", ⟨1, 2, 3, 4, 5, 6⟩),
        ("2020-01-02", ⟨7, 8, 9, 10, 11, 12⟩)] := by
  decide

/-- C2 (amended): the raw series computed in step 1 is always persisted
under (ticker, source); when the requested end is at or after the cached
end, the persisted entry's last date does not decrease.  (When the
requested end is strictly earlier, the truncated table is persisted and
the entry can shrink.) -/
theorem claim2_theorem (use_reference : Bool) (web : WebFetch)
    (quote : Option (Date × Rat)) (today : Date) (store : Store)
    (ticker source : String) (e : Date) {cache_df : Table} {cache_end : Date}
    (hc : read_cache store ticker source = some cache_df)
    (hl : lastDate cache_df = some cache_end)
    (hge : dlt e cache_end = false)
    (hsc : Sorted cache_df)
    (hfn : market_data_filename source ticker ≠
      market_data_filename "reference" ticker)
    {res : ReadResult}
    (hread : DataReader.read true use_reference web quote today store ticker
      source (some e) = some res) :
    ∃ t m, read_cache res.store ticker source = some t ∧
      lastDate t = some m ∧ dlt m cache_end = false := by
  rw [DataReader.read] at hread
  simp only [Option.getD_some] at hread
  rw [read_raw_data_fetch web store ticker source origin e hc hl hge] at hread
  simp only [Option.bind_eq_bind, Option.some_bind] at hread
  obtain ⟨df2, calls2, rfl⟩ : ∃ df2 calls2,
      res = ⟨df2, save_raw_data (save_raw_data store ticker source
        (combineFirst (web ticker source cache_end e) cache_df)) ticker
        "reference" df2, calls2⟩ := by
    split at hread
    · obtain ⟨df, hdf, hrest⟩ := Option.bind_eq_some.mp hread
      split at hrest
      · obtain ⟨df2, hdf2, hfin⟩ := Option.bind_eq_some.mp hrest
        exact ⟨df2, _, (Option.some.inj hfin).symm⟩
      · exact ⟨df, _, (Option.some.inj hrest).symm⟩
    · split at hread
      · obtain ⟨df2, hdf2, hfin⟩ := Option.bind_eq_some.mp hread
        exact ⟨df2, _, (Option.some.inj hfin).symm⟩
      · exact ⟨_, _, (Option.some.inj hread).symm⟩
  have hsraw : Sorted (combineFirst (web ticker source cache_end e) cache_df) :=
    sorted_combineFirst _ hsc
  rcases lastDate_mem hl with ⟨rc, hrc⟩
  rcases exists_mem_combineFirst (web ticker source cache_end e) hrc
    with ⟨r', hr'⟩
  have hread_store : read_cache
      (save_raw_data
        (save_raw_data store ticker source
          (combineFirst (web ticker source cache_end e) cache_df))
        ticker "reference" df2) ticker source =
      some (combineFirst (web ticker source cache_end e) cache_df) := by
    show storeRead (storeWrite (storeWrite store _ _) _ _) _ = _
    rw [storeRead_storeWrite_other _ _ hfn, storeRead_storeWrite_same]
  obtain ⟨m, hmfull⟩ : ∃ m,
      lastDate (combineFirst (web ticker source cache_end e) cache_df) =
        some m := by
    cases hx : combineFirst (web ticker source cache_end e) cache_df with
    | nil => rw [hx] at hr'; simp at hr'
    | cons p t0 => exact lastDate_isSome p t0
  exact ⟨combineFirst (web ticker source cache_end e) cache_df, m,
    hread_store, hmfull, not_dlt_lastDate hsraw hr' hmfull⟩

theorem claim2_witness :
    ∃ t m, read_cache
        (ReadResult.mk
          [("2020-01-01", ⟨1, 2, 3, 4, 5, 6⟩), ("2020-01-02", ⟨7, 8, 9, 10, 11, 12⟩)]
          [("GOOG.yahoo.csv",
            [("2020-01-01", ⟨1, 2, 3, 4, 5, 6⟩), ("2020-01-02", ⟨7, 8, 9, 10, 11, 12⟩)]),
           ("GOOG.csv",
            [("2020-01-01", ⟨1, 2, 3, 4, 5, 6⟩), ("2020-01-02", ⟨7, 8, 9, 10, 11, 12⟩)])]
          [⟨"GOOG", "yahoo", "2020-01-01", "2020-01-02"⟩]).store
        "GOOG" "yahoo" = some t ∧
      lastDate t = some m ∧ dlt m "2020-01-01" = false :=
  @claim2_theorem false
    (fun _ _ _ _ => [("2020-01-02", ⟨7, 8, 9, 10, 11, 12⟩)]) none "2020-03-01"
    [("GOOG.yahoo.csv", [("2020-01-01", ⟨1, 2, 3, 4, 5, 6⟩)])] "GOOG" "yahoo"
    "2020-01-02" [("2020-01-01", ⟨1, 2, 3, 4, 5, 6⟩)] "2020-01-01"
    (by decide) (by decide) (by decide) (by decide) (by decide)
    (ReadResult.mk
      [("2020-01-01", ⟨1, 2, 3, 4, 5, 6⟩), ("2020-01-02", ⟨7, 8, 9, 10, 11, 12⟩)]
      [("GOOG.yahoo.csv",
        [("2020-01-01", ⟨1, 2, 3, 4, 5, 6⟩), ("2020-01-02", ⟨7, 8, 9, 10, 11, 12⟩)]),
       ("GOOG.csv",
        [("2020-01-01", ⟨1, 2, 3, 4, 5, 6⟩), ("2020-01-02", ⟨7, 8, 9, 10, 11, 12⟩)])]
      [⟨"GOOG", "yahoo", "2020-01-01", "2020-01-02"⟩])
    (by decide)

theorem merge_reconstruct (V : Table) (D1 D2 : Date) (hsV : Sorted V)
    (h12 : dlt D1 D2 = true)
    (hor : ∀ p ∈ V, dlt p.1 origin = false) :
    combineFirst (truncFrom (truncTo V D2) D1) (truncTo V D1) =
      truncFrom (truncTo V D2) origin := by
  apply table_ext
  · exact sorted_combineFirst _ (sorted_filter _ hsV)
  · exact sorted_filter _ (sorted_filter _ hsV)
  intro d
  have h2 : getVal (truncTo V D2) d =
      if !dlt D2 d then getVal V d else none :=
    getVal_filter (fun x => !dlt D2 x) V d
  have h1 : getVal (truncTo V D1) d =
      if !dlt D1 d then getVal V d else none :=
    getVal_filter (fun x => !dlt D1 x) V d
  have hA : getVal (truncFrom (truncTo V D2) D1) d =
      if !dlt d D1 then getVal (truncTo V D2) d else none :=
    getVal_filter (fun x => !dlt x D1) (truncTo V D2) d
  have hR : getVal (truncFrom (truncTo V D2) origin) d =
      if !dlt d origin then getVal (truncTo V D2) d else none :=
    getVal_filter (fun x => !dlt x origin) (truncTo V D2) d
  cases hv : getVal V d with
  | none =>
    rw [hv, ite_self] at h2 h1
    rw [h2, ite_self] at hA hR
    rw [getVal_combineFirst_none _ hA, h1, hR]
  | some r =>
    have hdor : dlt d origin = false :=
      hor (d, r) (getVal_eq_some_mem hv)
    rw [hdor] at hR
    simp only [Bool.not_false, if_true] at hR
    cases hd1 : dlt D1 d with
    | true =>
      have had1 : dlt d D1 = false := dlt_asymm hd1
      rw [had1] at hA
      simp only [Bool.not_false, if_true] at hA
      rw [hd1] at h1
      simp only [Bool.not_true, Bool.false_eq_true, if_false] at h1
      cases hd2 : dlt D2 d with
      | true =>
        rw [hd2] at h2
        simp only [Bool.not_true, Bool.false_eq_true, if_false] at h2
        rw [getVal_combineFirst_none _ (hA.trans h2), h1, hR, h2]
      | false =>
        rw [hd2, hv] at h2
        simp only [Bool.not_false, if_true] at h2
        rw [getVal_combineFirst_left _ (hA.trans h2), hR, h2]
    | false =>
      rw [hd1, hv] at h1
      simp only [Bool.not_false, if_true] at h1
      have hd2' : dlt D2 d = false := by
        cases hx : dlt D2 d with
        | true => rw [dlt_trans h12 hx] at hd1; exact absurd hd1 (by simp)
        | false => rfl
      rw [hd2', hv] at h2
      simp only [Bool.not_false, if_true] at h2
      rw [hR, h2]
      cases hdd1 : dlt d D1 with
      | true =>
        rw [hdd1] at hA
        simp only [Bool.not_true, Bool.false_eq_true, if_false] at hA
        rw [getVal_combineFirst_none _ hA, h1]
      | false =>
        rw [hdd1] at hA
        simp only [Bool.not_false, if_true] at hA
        rw [getVal_combineFirst_left _ (hA.trans h2)]

/-- C3: with cache spanning [origin, D1] (agreeing with the vendor) and a
request for end = D2 > D1, the remote fetch happens exactly once, with
start = D1 and end = D2, and the table `read` returns equals the vendor's
full direct fetch over [origin, D2]. -/
theorem claim3_theorem (V : Table) (quote : Option (Date × Rat))
    (today : Date) (store : Store) (ticker source : String) (D1 D2 : Date)
    (hsV : Sorted V)
    (hor : ∀ p ∈ V, dlt p.1 origin = false)
    (hc : read_cache store ticker source = some (truncTo V D1))
    (hl : lastDate (truncTo V D1) = some D1)
    (h12 : dlt D1 D2 = true)
    (hnt : D2 ≠ today) :
    DataReader.read true false (vendor_fetch V) quote today store ticker
      source (some D2) =
      some ⟨vendor_fetch V ticker source origin D2,
        save_raw_data (save_raw_data store ticker source
          (vendor_fetch V ticker source origin D2)) ticker "reference"
          (vendor_fetch V ticker source origin D2),
        [⟨ticker, source, D1, D2⟩]⟩ := by
  have hkey : combineFirst (vendor_fetch V ticker source D1 D2)
      (truncTo V D1) = vendor_fetch V ticker source origin D2 :=
    merge_reconstruct V D1 D2 hsV h12 hor
  rw [DataReader.read]
  show (read_raw_data true (vendor_fetch V) store ticker source origin
    D2).bind _ = _
  rw [read_raw_data_fetch (vendor_fetch V) store ticker source origin D2 hc hl
    (dlt_asymm h12)]
  simp [hnt, hkey]

theorem claim3_witness :
    DataReader.read true false
        (vendor_fetch [("2020-01-01", ⟨1, 1, 1, 1, 1, 1⟩),
          ("2020-01-02", ⟨2, 2, 2, 2, 2, 2⟩), ("2020-01-03", ⟨3, 3, 3, 3, 3, 3⟩)])
        none "2020-03-01"
        [("GOOG.yahoo.csv",
          [("2020-01-01", ⟨1, 1, 1, 1, 1, 1⟩), ("2020-01-02", ⟨2, 2, 2, 2, 2, 2⟩)])]
        "GOOG" "yahoo" (some "2020-01-03") =
      some ⟨[("2020-01-01", ⟨1, 1, 1, 1, 1, 1⟩), ("2020-01-02", ⟨2, 2, 2, 2, 2, 2⟩),
          ("2020-01-03", ⟨3, 3, 3, 3, 3, 3⟩)],
        [("GOOG.yahoo.csv",
          [("2020-01-01", ⟨1, 1, 1, 1, 1, 1⟩), ("2020-01-02", ⟨2, 2, 2, 2, 2, 2⟩),
           ("2020-01-03", ⟨3, 3, 3, 3, 3, 3⟩)]),
         ("GOOG.csv",
          [("2020-01-01", ⟨1, 1, 1, 1, 1, 1⟩), ("2020-01-02", ⟨2, 2, 2, 2, 2, 2⟩),
           ("2020-01-03", ⟨3, 3, 3, 3, 3, 3⟩)])],
        [⟨"GOOG", "yahoo", "2020-01-02", "2020-01-03"⟩]⟩ :=
  (claim3_theorem
    [("2020-01-01", ⟨1, 1, 1, 1, 1, 1⟩), ("2020-01-02", ⟨2, 2, 2, 2, 2, 2⟩),
     ("2020-01-03", ⟨3, 3, 3, 3, 3, 3⟩)]
    none "2020-03-01"
    [("GOOG.yahoo.csv",
      [("2020-01-01", ⟨1, 1, 1, 1, 1, 1⟩), ("2020-01-02", ⟨2, 2, 2, 2, 2, 2⟩)])]
    "GOOG" "yahoo" "2020-01-02" "2020-01-03"
    (by decide) (by decide) (by decide) (by decide) (by decide)
    (by decide)).trans (by decide)

/-- C4 (as stated, refuted): with `enable_cache = False` the call still
writes cache files: starting from an empty cache directory, a read leaves
behind both the raw entry and the reference entry. -/
theorem claim4_counterexample :
    (DataReader.read false false
        (fun _ _ _ _ => [("2020-01-01", ⟨1, 2, 3, 4, 5, 6⟩)]) none
        "2020-03-01" [] "GOOG" "yahoo" (some "2020-01-02")).map
        (fun res => res.store) =
      some [("GOOG.yahoo.csv", [("2020-01-01", ⟨1, 2, 3, 4, 5, 6⟩)]),
        ("GOOG.csv", [("2020-01-01", ⟨1, 2, 3, 4, 5, 6⟩)])] ∧
    ([("GOOG.yahoo.csv", [("2020-01-01", ⟨1, 2, 3, 4, 5, 6⟩)]),
        ("GOOG.csv", [("2020-01-01", ⟨1, 2, 3, 4, 5, 6⟩)])] : Store) ≠ [] := by
  decide

/-- C4 (amended): with `enable_cache = False` the cache is bypassed only
when computing the raw series — the data is fetched directly over
[origin, end] in a single remote call — but the call still persists the
fetched series under both the raw (ticker, source) key and the reference
key. -/
theorem claim4_theorem (web : WebFetch) (quote : Option (Date × Rat))
    (today : Date) (store : Store) (ticker source : String) (e : Date)
    (hnt : e ≠ today) :
    DataReader.read false false web quote today store ticker source
      (some e) =
      some ⟨web ticker source origin e,
        save_raw_data
          (save_raw_data store ticker source (web ticker source origin e))
          ticker "reference" (web ticker source origin e),
        [⟨ticker, source, origin, e⟩]⟩ := by
  rw [DataReader.read]
  show (read_raw_data false web store ticker source origin e).bind _ = _
  rw [show read_raw_data false web store ticker source origin e =
    some (web ticker source origin e, [⟨ticker, source, origin, e⟩]) from rfl]
  simp [hnt]

theorem claim4_witness :
    DataReader.read false false
        (fun _ _ _ _ => [("2020-01-01", ⟨1, 2, 3, 4, 5, 6⟩)]) none
        "2020-03-01" [] "GOOG" "yahoo" (some "2020-01-02") =
      some ⟨[("2020-01-01", ⟨1, 2, 3, 4, 5, 6⟩)],
        [("GOOG.yahoo.csv", [("2020-01-01", ⟨1, 2, 3, 4, 5, 6⟩)]),
         ("GOOG.csv", [("2020-01-01", ⟨1, 2, 3, 4, 5, 6⟩)])],
        [⟨"GOOG", "yahoo", "1926-01-01", "2020-01-02"⟩]⟩ :=
  (claim4_theorem (fun _ _ _ _ => [("2020-01-01", ⟨1, 2, 3, 4, 5, 6⟩)]) none
    "2020-03-01" [] "GOOG" "yahoo" "2020-01-02" (by decide)).trans (by decide)

/-- C9: with the reference overlay enabled and a cached reference table
whose last date lies strictly beyond the requested end, the returned
table keeps the reference's rows dated after the end (no truncation), and
the same table is persisted under the reference key. -/
theorem claim9_theorem (enable_cache : Bool) (web : WebFetch) (today : Date)
    (store : Store) (ticker source : String) (e : Date)
    {raw_df : Table} {calls : List FetchCall}
    (hrrd : read_raw_data enable_cache web store ticker source origin e =
      some (raw_df, calls))
    {ref_df : Table} {ref_end : Date}
    (hfn : market_data_filename "reference" ticker ≠
      market_data_filename source ticker)
    (href : read_cache store ticker "reference" = some ref_df)
    (hrl : lastDate ref_df = some ref_end)
    (hre : dlt e ref_end = true)
    {d : Date} {r : Row}
    (hd : getVal ref_df d = some r)
    (hde : dlt e d = true)
    (hnt : e ≠ today) :
    ∃ res, DataReader.read enable_cache true web none today store ticker
        source (some e) = some res ∧
      getVal res.table d = some r ∧
      read_cache res.store ticker "reference" = some res.table := by
  have h1 : read_cache (save_raw_data store ticker source raw_df) ticker
      "reference" = some ref_df := by
    show storeRead (storeWrite store _ _) _ = _
    rw [storeRead_storeWrite_other _ _ hfn]
    exact href
  refine ⟨⟨combineFirst ref_df (truncFrom raw_df ref_end),
    save_raw_data (save_raw_data store ticker source raw_df) ticker
      "reference" (combineFirst ref_df (truncFrom raw_df ref_end)),
    calls⟩, ?_, ?_, ?_⟩
  · rw [DataReader.read]
    show (read_raw_data enable_cache web store ticker source origin e).bind _
      = _
    rw [hrrd]
    simp [h1, combine_ref_and_raw_data, hrl, hnt]
  · exact getVal_combineFirst_left _ hd
  · show storeRead (storeWrite _ _ _) _ = _
    exact storeRead_storeWrite_same _ _ _

theorem claim9_witness :
    ∃ res, DataReader.read false true
        (fun _ _ _ _ => [("2020-01-01", ⟨1, 2, 3, 4, 5, 6⟩)]) none
        "2020-03-01" [("GOOG.csv",
          [("2020-01-01", ⟨7, 7, 7, 7, 7, 7⟩), ("2020-01-05", ⟨8, 8, 8, 8, 8, 8⟩)])]
        "GOOG" "yahoo" (some "2020-01-02") = some res ∧
      getVal res.table "2020-01-05" = some ⟨8, 8, 8, 8, 8, 8⟩ ∧
      read_cache res.store "GOOG" "reference" = some res.table :=
  @claim9_theorem false (fun _ _ _ _ => [("2020-01-01", ⟨1, 2, 3, 4, 5, 6⟩)])
    "2020-03-01"
    [("GOOG.csv",
      [("2020-01-01", ⟨7, 7, 7, 7, 7, 7⟩), ("2020-01-05", ⟨8, 8, 8, 8, 8, 8⟩)])]
    "GOOG" "yahoo" "2020-01-02"
    [("2020-01-01", ⟨1, 2, 3, 4, 5, 6⟩)]
    [⟨"GOOG", "yahoo", "1926-01-01", "2020-01-02"⟩]
    (by decide)
    [("2020-01-01", ⟨7, 7, 7, 7, 7, 7⟩), ("2020-01-05", ⟨8, 8, 8, 8, 8, 8⟩)]
    "2020-01-05"
    (by decide) (by decide) (by decide) (by decide)
    "2020-01-05" ⟨8, 8, 8, 8, 8, 8⟩
    (by decide) (by decide) (by decide)
